import Mathlib

set_option maxRecDepth 4000

/-!
Shallow embedding of the event-driven trading pipeline
(`src/core/event_bus.py`, `src/core/stream_router.py`,
`src/utils/candlestick_aggregator.py`, `src/strategy/multi_strategy_manager.py`,
`src/portfolio/portfolio_handler.py`, `src/execution/order_execution_handler.py`)
and proofs about the specified properties.

Conventions of the embedding:
* Python floats are modelled as exact rationals (`ℚ`); decimal literals are
  written with `mkRat` so that they evaluate by kernel reduction.
* Python dicts used as keyed tables are modelled as functions out of `String`
  (`defaultdict` semantics: a total function with the default value) or as
  `String → Option _` (plain dict).
* Timestamps are modelled by their epoch value (seconds); the ISO-8601 parsing
  done by the Python code is represented by that value directly.
* `str.upper()` is modelled by `pyUpper`, mapping `Char.toUpper` over the
  characters (ASCII tickers).
-/

/-- Model of Python `str.upper()` (ASCII): uppercase every character. -/
def pyUpper (s : String) : String := ⟨s.data.map Char.toUpper⟩

theorem Char.toNat_ofNat_upper (m : Nat) (h1 : 65 ≤ m) (h2 : m ≤ 90) :
    (Char.ofNat m).toNat = m := by
  interval_cases m <;> decide

theorem Char.toUpper_toUpper (c : Char) : c.toUpper.toUpper = c.toUpper := by
  unfold Char.toUpper
  by_cases h : c.toNat ≥ 97 ∧ c.toNat ≤ 122
  · rw [if_pos h]
    have h1 : (Char.ofNat (c.toNat - 32)).toNat = c.toNat - 32 :=
      Char.toNat_ofNat_upper _ (by omega) (by omega)
    rw [if_neg]
    rw [h1]
    omega
  · rw [if_neg h, if_neg h]

theorem pyUpper_pyUpper (s : String) : pyUpper (pyUpper s) = pyUpper s := by
  unfold pyUpper
  simp only [List.map_map]
  congr 1
  apply List.map_congr_left
  intro c _
  exact Char.toUpper_toUpper c

/-- Pointwise update of a string-keyed table (Python `d[k] = v`). -/
def fupd {β : Type} (f : String → β) (k : String) (v : β) : String → β :=
  fun x => if x = k then v else f x

theorem fupd_same {β : Type} (f : String → β) (k : String) (v : β) :
    fupd f k v k = v := by simp [fupd]

theorem fupd_other {β : Type} (f : String → β) (k x : String) (v : β) (h : x ≠ k) :
    fupd f k v x = f x := by simp [fupd, h]

/-! ### Event bus (`src/core/event_bus.py`)

`EventBus.publish` iterates over the subscriber list of the topic.  A
synchronous callback is invoked inside `try/except Exception`, which logs and
swallows its error (lines 40-47).  A coroutine callback is collected and the
resulting coroutines are awaited through `asyncio.gather` *outside* any
`try` block (lines 49-51), so the first exception raised by an async handler
propagates to the caller of `publish`.  `publish` never writes to
`self._subscribers`.  The handler bodies are modelled as pure functions
returning `Except String Unit` (`.error` = the handler raised). -/

inductive HKind
  | sync
  | async
deriving DecidableEq

structure Handler (α : Type) where
  kind : HKind
  run : α → Except String Unit

structure EventBus (α : Type) where
  subscribers : String → List (Handler α)

/-- `asyncio.gather(*tasks)` with `return_exceptions=False`: the first error
among the awaited coroutines is raised; `ok` iff all succeed. -/
def gatherFirstError : List (Except String Unit) → Except String Unit
  | [] => .ok ()
  | .error e :: _ => .error e
  | .ok () :: rest => gatherFirstError rest

/-- Result of the dispatch loop of `EventBus.publish` (event_bus.py lines
38-51): sync callbacks run inside `try/except` (their errors are logged and
swallowed), async callbacks are gathered and their first error propagates. -/
def EventBus.publishResult {α : Type} (callbacks : List (Handler α)) (data : α) :
    Except String Unit :=
  gatherFirstError
    ((callbacks.filter (fun h => h.kind == HKind.async)).map (fun h => h.run data))

/-- `EventBus.publish` (event_bus.py lines 26-51).  The subscriber table is
returned unchanged: the method only reads `self._subscribers`. -/
def EventBus.publish {α : Type} (bus : EventBus α) (topic : String) (data : α) :
    EventBus α × Except String Unit :=
  (bus, EventBus.publishResult (bus.subscribers topic) data)

/-! ### System wiring (`run_engine.py`, constructors' `subscribe` calls)

Each component's constructor registers its handlers on the bus; the pairs
below record exactly the `bus.subscribe(topic, handler)` calls made when
`src/run_engine.py` builds the system. -/

/-- `CandlestickAggregator.__init__` (candlestick_aggregator.py line 30). -/
def aggregatorSubscriptions : List (String × String) :=
  [("RAW_MARKET", "CandlestickAggregator.on_tick")]

/-- `StreamRouter.__init__` (stream_router.py line 22). -/
def streamRouterSubscriptions : List (String × String) :=
  [("RAW_MARKET", "StreamRouter.on_raw")]

/-- The topic on which `StreamRouter._flush_buffer` re-publishes ordered
events (stream_router.py line 77). -/
def streamRouterOutputTopic : String := "ORDERED_MARKET"

/-- `MultiStrategyManager.__init__` with `enable=True`
(multi_strategy_manager.py line 50). -/
def managerSubscriptions : List (String × String) :=
  [("MARKET_SNAPSHOT", "MultiStrategyManager.on_market_snapshot")]

/-- `PortfolioHandler.__init__` (portfolio_handler.py lines 40-41). -/
def portfolioSubscriptions : List (String × String) :=
  [("SIGNAL", "PortfolioHandler.on_signal"), ("FILL", "PortfolioHandler.on_fill")]

/-- `OrderExecutionHandler.__init__` with a bus (order_execution_handler.py
line 32). -/
def executionSubscriptions : List (String × String) :=
  [("ORDER", "OrderExecutionHandler.on_order")]

/-- The full subscription table built by `src/run_engine.py`'s `main()`:
the aggregator's constructor subscription (line 30 of run_engine.py builds the
aggregator), the explicit duplicate `bus.subscribe("RAW_MARKET",
aggregator.on_tick)` at line 32, then the strategy manager, portfolio and
execution constructors.  `StreamRouter` is never instantiated by
`run_engine.py` (nor by `run_backtest.py`). -/
def runEngineSubscriptions : List (String × String) :=
  aggregatorSubscriptions
    ++ [("RAW_MARKET", "CandlestickAggregator.on_tick")]
    ++ managerSubscriptions
    ++ portfolioSubscriptions
    ++ executionSubscriptions

/-! ### Stream router per-symbol consumer (`src/core/stream_router.py`)

`_symbol_consumer` (lines 44-70) pulls items from the symbol queue, pushes
`(epoch, item)` tuples onto a `heapq` buffer, and flushes the *entire* buffer
in ascending-epoch order (`_flush_buffer`, lines 72-77) whenever
`(now - last_flush) * 1000 >= buffer_ms` or `len(buffer) > 50`.

`heapq.heappush` appends the new tuple and sifts it up, comparing it with the
tuples already on the parent chain using Python tuple `<`.  Tuple comparison
ties on equal epochs and falls through to comparing the payload dicts: equal
dicts compare equal (no error), unequal dicts raise `TypeError`
(`dict < dict` is unsupported).  The payload type is a parameter `α` with
decidable equality; `cmpLtE` returns `.error ()` exactly in the `TypeError`
case.  The sift-up loop is written with an explicit fuel argument equal to the
start position (the parent position `(pos-1)/2` is strictly smaller than
`pos`, so the fuel is never exhausted before `pos` reaches 0); the
out-of-fuel branch is unreachable for the actual call in `heappushE`.

A raised `TypeError` is not caught anywhere in `_symbol_consumer`, so the
consumer task dies: in the model the `ok` flag becomes `false` and all later
arrivals are ignored.  Draining a binary min-heap pops elements in ascending
key order; `flushSorted` models the full drain of `_flush_buffer` by sorting
the buffer contents by epoch. -/

/-- Python `(e1, p1) < (e2, p2)` for heap tuples whose second components are
payload dicts: distinct epochs decide; equal epochs with equal payloads give
`False`; equal epochs with distinct payloads raise `TypeError` (`.error`). -/
def cmpLtE {α : Type} [DecidableEq α] (x y : ℚ × α) : Except Unit Bool :=
  if x.1 = y.1 then
    if x.2 = y.2 then .ok false else .error ()
  else .ok (decide (x.1 < y.1))

/-- `heapq._siftdown(heap, 0, pos)`: walk up the parent chain; while
`newitem < parent`, move the parent down, else stop; finally store `newitem`.
`fuel` bounds the loop (callers pass `fuel = pos`). -/
def siftdownAux {α : Type} [DecidableEq α] (newitem : ℚ × α) :
    List (ℚ × α) → Nat → Nat → Except Unit (List (ℚ × α))
  | l, pos, fuel =>
    if pos = 0 then .ok (l.set pos newitem)
    else
      match fuel with
      | 0 => .ok (l.set pos newitem)
      | fuel' + 1 =>
        let parentpos := (pos - 1) / 2
        let parent := (l.get? parentpos).getD newitem
        match cmpLtE newitem parent with
        | .error e => .error e
        | .ok true => siftdownAux newitem (l.set pos parent) parentpos fuel'
        | .ok false => .ok (l.set pos newitem)

/-- `heapq.heappush(heap, item)`: append then sift up from the last slot. -/
def heappushE {α : Type} [DecidableEq α] (item : ℚ × α) (l : List (ℚ × α)) :
    Except Unit (List (ℚ × α)) :=
  siftdownAux item (l ++ [item]) l.length l.length

/-- Full drain of the heap buffer in `_flush_buffer` (stream_router.py lines
72-77): all buffered entries are popped and re-published in ascending epoch
order. -/
def flushSorted {α : Type} (buffer : List (ℚ × α)) : List (ℚ × α) :=
  buffer.insertionSort (fun a b => a.1 ≤ b.1)

/-- State of one `_symbol_consumer` task: the heap buffer, the time of the
last flush, the batches published so far (each batch in emission order), and
whether the task is still alive (`ok = false` once a heap comparison raised). -/
structure RouterState (α : Type) where
  buffer : List (ℚ × α)
  lastFlush : ℚ
  batches : List (List (ℚ × α))
  ok : Bool

/-- One iteration of the `while True` loop of `_symbol_consumer` for an
arrival `(now, epoch, item)`: push `(epoch, item)` onto the heap, then flush
everything if `(now - last_flush) * 1000 ≥ buffer_ms` or the buffer holds
more than 50 items.  A dead task (previous `TypeError`) processes nothing. -/
def consumerStep {α : Type} [DecidableEq α] (bufferMs : ℚ) (st : RouterState α)
    (arr : ℚ × ℚ × α) : RouterState α :=
  if st.ok = false then st
  else
    match heappushE (arr.2.1, arr.2.2) st.buffer with
    | .error _ => { st with ok := false }
    | .ok buf' =>
      if (arr.1 - st.lastFlush) * 1000 ≥ bufferMs ∨ buf'.length > 50 then
        { buffer := [], lastFlush := arr.1,
          batches := st.batches ++ [flushSorted buf'], ok := true }
      else { st with buffer := buf' }

/-- Run of one `_symbol_consumer` over a list of arrivals
`(arrival time, epoch, payload)`, starting with an empty buffer and
`last_flush = t0` (the task's start time). -/
def consumerRun {α : Type} [DecidableEq α] (bufferMs : ℚ) (t0 : ℚ)
    (arrivals : List (ℚ × ℚ × α)) : RouterState α :=
  arrivals.foldl (consumerStep bufferMs) ⟨[], t0, [], true⟩

/-- Tag each arrival's payload with its position in the input, so that
statements can speak about which input item ended up where. -/
def tagFrom {α : Type} : Nat → List (ℚ × ℚ × α) → List (ℚ × ℚ × (Nat × α))
  | _, [] => []
  | n, (t, e, a) :: rest => (t, e, (n, a)) :: tagFrom (n + 1) rest

/-- A raw tick as buffered by the router: the payload dict.  `tsEpoch` is the
epoch value parsed from its ISO timestamp (stream_router.py line 61). -/
structure Tick where
  symbol : String
  price : ℚ
  volume : ℚ
  tsEpoch : ℚ
deriving DecidableEq, Inhabited

/-! ### Candlestick aggregator (`src/utils/candlestick_aggregator.py`)

Tick timestamps here are whole epoch seconds (`Nat`): `_get_bucket_start`
first zeroes `second` and `microsecond`, so sub-minute precision never
reaches the bucket computation.  Prices and volumes are rationals. -/

/-- `_parse_timeframes` entry (candlestick_aggregator.py lines 36-45):
`"Nm" ↦ N*60`, `"Nh" ↦ N*3600`, anything else raises `ValueError` (`none`).
String inspection is done on the character list (Python slicing `tf[:-1]`
and `int(...)`). -/
def digitsToNat : List Char → Option Nat
  | [] => none
  | cs =>
    if cs.all (fun c => c.isDigit) then
      some (cs.foldl (fun acc c => acc * 10 + (c.toNat - 48)) 0)
    else none

def parseTimeframe (tf : String) : Option Nat :=
  match tf.data.getLast? with
  | some 'm' => (digitsToNat tf.data.dropLast).map (· * 60)
  | some 'h' => (digitsToNat tf.data.dropLast).map (· * 3600)
  | _ => none

def parseTimeframes (tfs : List String) : Option (List (String × Nat)) :=
  match tfs with
  | [] => some []
  | tf :: rest =>
    match parseTimeframe tf, parseTimeframes rest with
    | some secs, some m => some ((tf, secs) :: m)
    | _, _ => none

/-- `_get_bucket_start(ts, secs)` (candlestick_aggregator.py lines 47-50) on
an epoch-second timestamp: `ts.replace(second=0, microsecond=0)` truncates to
the minute, then `delta = (ts.minute * 60 + ts.second) % secs` (the second is
already 0) is subtracted. -/
def bucketStart (ts secs : Nat) : Nat :=
  let t' := ts - ts % 60
  let m := (t' / 60) % 60
  t' - (m * 60) % secs

/-- One candle dict as kept in `self.buffers[symbol][tf]` and emitted when
closed (`update_tick`, lines 126-134). -/
structure Candle where
  start : Nat
  tf : String
  open_ : ℚ
  high : ℚ
  low : ℚ
  close : ℚ
  volume : ℚ
deriving DecidableEq

def newCandle (bs : Nat) (tf : String) (price volume : ℚ) : Candle :=
  { start := bs, tf := tf, open_ := price, high := price, low := price,
    close := price, volume := volume }

/-- Body of the `for tf, secs in self.timeframes.items()` loop of
`update_tick` (candlestick_aggregator.py lines 117-141) for one timeframe:
returns the updated buffer list and the candles closed by this tick. -/
def updateTF (tf : String) (secs : Nat) (price volume : ℚ) (ts : Nat)
    (buf : List Candle) : List Candle × List Candle :=
  let bs := bucketStart ts secs
  match buf.getLast? with
  | none => ([newCandle bs tf price volume], [])
  | some last =>
    if last.start ≠ bs then
      (buf.dropLast ++ [{ last with tf := tf }, newCandle bs tf price volume],
       [{ last with tf := tf }])
    else
      (buf.dropLast ++ [{ last with
          high := max last.high price,
          low := min last.low price,
          close := price,
          volume := last.volume + volume }], [])

/-- `update_tick` for one symbol: fold the per-timeframe update over the
configured timeframes, accumulating finished candles in loop order.  The
per-symbol buffer map `buffers[symbol]` is a `defaultdict(list)` keyed by
timeframe. -/
def updateTick (tfs : List (String × Nat)) (bufs : String → List Candle)
    (price volume : ℚ) (ts : Nat) : (String → List Candle) × List Candle :=
  tfs.foldl
    (fun acc p =>
      let r := updateTF p.1 p.2 price volume ts (acc.1 p.1)
      (fupd acc.1 p.1 r.1, acc.2 ++ r.2))
    (bufs, [])

/-- Run of the aggregator for one symbol over ticks `(price, volume, epoch)`,
collecting every candle closed and emitted (`on_tick` publishes each finished
candle as a `MARKET_SNAPSHOT`). -/
def aggRun (tfs : List (String × Nat)) (ticks : List (ℚ × ℚ × Nat)) :
    (String → List Candle) × List Candle :=
  ticks.foldl
    (fun acc t =>
      let r := updateTick tfs acc.1 t.1 t.2.1 t.2.2
      (r.1, acc.2 ++ r.2))
    (fun _ => [], [])

/-! ### Strategy blender (`src/strategy/multi_strategy_manager.py`)

The manager holds five alphas (lines 32-38); `on_market_snapshot` computes a
per-alpha score, combines them by `sum(alpha_weights[name] * scores[name])`,
zeroes the result when `|combined| < THRESHOLD`, clips to `[-1, 1]`, and only
publishes when the result moved at least `0.05` away from
`last_published_score[symbol]` (lines 139-180).  The per-alpha scores and the
weight mapping are inputs here (dict lookups modelled as total functions). -/

def alphaNames : List String :=
  ["meanreversion", "momentum", "atrgaussian", "macdfibonacci", "genericalpha"]

/-- `THRESHOLD = 0.05` (multi_strategy_manager.py line 13). -/
def THRESHOLD : ℚ := mkRat 5 100

/-- `combined = sum(self.alpha_weights[name] * scores[name] for name in
self.alphas)` (line 139). -/
def combineScores (w s : String → ℚ) : ℚ :=
  (alphaNames.map (fun n => w n * s n)).sum

/-- Threshold-then-clip (lines 142-144): zero below conviction, clip to
`[-1, 1]`. -/
def thresholdClip (c : ℚ) : ℚ :=
  max (-1) (min 1 (if |c| < THRESHOLD then 0 else c))

/-- The publish decision of `on_market_snapshot` (lines 139-180): `none` when
the anti-spam check `|combined - last_published_score[symbol]| < 0.05`
absorbs the tick, `some score` when a TARGET signal with that score is
published. -/
def blendDecision (w s : String → ℚ) (lastPublished : ℚ) : Option ℚ :=
  let combined := thresholdClip (combineScores w s)
  if |combined - lastPublished| < mkRat 5 100 then none else some combined

/-! ### Event records (`src/core/schemas.py` — absent from src/)

The repository imports `Order` and `Fill` from `src.core.schemas`, a module
not present under src/. -/

/-- Modelled from the spec: the opaque attribution payload carried by signals,
orders and fills ("meta (opaque attribution payload, must round-trip through
execution unmodified)", "meta{scores: mapping alpha-name→score}").  `alpha`
stands for the other keys the manager puts next to `scores` (e.g.
`"alpha": "multi"`); `scores` is the per-alpha score mapping, `[]` when the
key is missing or empty. -/
structure Meta where
  alpha : String
  scores : List (String × ℚ)
deriving DecidableEq

/-- A SIGNAL event as published by the manager (a plain dict in the source:
`{"symbol", "direction", "score", "price", "meta"}`). -/
structure Signal where
  symbol : String
  direction : String
  score : ℚ
  price : ℚ
  meta : Meta
deriving DecidableEq

/-- Modelled from the spec: `Order = {symbol, quantity>0, direction∈{BUY,SELL},
price, order_id (unique), meta}` (src/core/schemas.py is absent from src/). -/
structure Order where
  symbol : String
  quantity : ℚ
  direction : String
  price : ℚ
  orderId : String
  meta : Meta
deriving DecidableEq

/-- Modelled from the spec: `Fill = {symbol, quantity, direction, fill_price,
commission, timestamp, order_id, meta}` (src/core/schemas.py is absent from
src/; the wall-clock `timestamp` field is omitted — no claim touches it). -/
structure Fill where
  symbol : String
  quantity : ℚ
  direction : String
  fillPrice : ℚ
  commission : ℚ
  orderId : String
  meta : Meta
deriving DecidableEq

/-! ### Portfolio ledger (`src/portfolio/portfolio_handler.py`) -/

/-- `MIN_TRADE_UNITS = 1e-6` (portfolio_handler.py line 9). -/
def MIN_TRADE_UNITS : ℚ := mkRat 1 1000000

/-- `DELTA_THRESHOLD = 0.0004` (portfolio_handler.py line 10). -/
def DELTA_THRESHOLD : ℚ := mkRat 4 10000

/-- `DEFAULT_MAX_UNITS = 0.01` (portfolio_handler.py line 11). -/
def DEFAULT_MAX_UNITS : ℚ := mkRat 1 100

/-- The ledger state owned by `PortfolioHandler`: `cash`, `positions`,
`last_prices`, `max_units` (all `defaultdict(float)`-style total maps) and
the per-alpha virtual-position attribution map `alpha_virtual_pos`. -/
structure PortfolioState where
  cash : ℚ
  positions : String → ℚ
  lastPrices : String → ℚ
  maxUnits : String → ℚ
  alphaVirtPos : String → String → ℚ

/-- `PortfolioHandler.on_signal` (portfolio_handler.py lines 58-102).
Returns the updated state and the order published on the `ORDER` topic, if
any.  `orderId` stands for the wall-clock-generated
`f"ORD-{datetime.utcnow().timestamp():.6f}"` (line 92). -/
def onSignal (st : PortfolioState) (sig : Signal) (orderId : String) :
    PortfolioState × Option Order :=
  if sig.direction ≠ "TARGET" then (st, none)
  else
    let symbol := pyUpper sig.symbol
    let price := sig.price
    let score := sig.score
    let meta :=
      if sig.meta.scores = [] then { sig.meta with scores := [("GENERIC", score)] }
      else sig.meta
    let st1 := { st with lastPrices := fupd st.lastPrices symbol price }
    let target := max (-1) (min 1 score) * st.maxUnits symbol
    let current := st.positions symbol
    let delta := target - current
    if |delta| < max DELTA_THRESHOLD MIN_TRADE_UNITS then (st1, none)
    else
      let direction := if delta > 0 then "BUY" else "SELL"
      (st1, some { symbol := symbol, quantity := |delta|, direction := direction,
                   price := price, orderId := orderId, meta := meta })

/-- `PortfolioHandler.on_fill` (portfolio_handler.py lines 105-180): apply
the signed quantity to the position, mark the fill price, adjust cash by
±(trade value ± commission), and add `qty_signed * score` to each alpha's
virtual position.  The equity recomputation, CSV logging and
`PORTFOLIO_MARK` republishing (lines 132-176) read state but do not change
it. -/
def onFill (st : PortfolioState) (f : Fill) : PortfolioState :=
  let symbol := pyUpper f.symbol
  let price := f.fillPrice
  let qtySigned := if pyUpper f.direction = "BUY" then f.quantity else -f.quantity
  let positions' := fupd st.positions symbol (st.positions symbol + qtySigned)
  let lastPrices' := fupd st.lastPrices symbol price
  let tradeValue := price * |f.quantity|
  let cash' :=
    if qtySigned > 0 then st.cash - (tradeValue + f.commission)
    else st.cash + (tradeValue - f.commission)
  let scores := if f.meta.scores = [] then [("GENERIC", (1 : ℚ))] else f.meta.scores
  let avp' := scores.foldl
    (fun m p => fun a => if a = p.1 then fupd (m a) symbol (m a symbol + qtySigned * p.2) else m a)
    st.alphaVirtPos
  { st with positions := positions', lastPrices := lastPrices', cash := cash',
            alphaVirtPos := avp' }

/-! ### Execution simulator (`src/execution/order_execution_handler.py`) -/

/-- The state owned by `OrderExecutionHandler`: the mode string, the
slippage and commission basis points (integers in the source), and the
`_order_meta` side-table keyed by order id. -/
structure ExecState where
  mode : String
  slippageBps : Int
  commissionBps : Int
  orderMeta : String → Option Meta

/-- `_simulate_fill` (order_execution_handler.py lines 66-108): compute the
slippage-adjusted fill price and the commission, pop the stashed meta
(`self._order_meta.pop(order.order_id, {})`), and build the Fill published on
the `FILL` topic.  The random latency sleep affects no published value. -/
def simulateFill (st : ExecState) (o : Order) : ExecState × Fill :=
  let slippage := mkRat st.slippageBps 10000 * o.price
  let fillPrice := if o.direction = "BUY" then o.price + slippage else o.price - slippage
  let commission := mkRat st.commissionBps 10000 * (fillPrice * o.quantity)
  let meta := (st.orderMeta o.orderId).getD { alpha := "", scores := [] }
  let st' := { st with orderMeta := fun k => if k = o.orderId then none else st.orderMeta k }
  (st', { symbol := o.symbol, quantity := o.quantity, direction := o.direction,
          fillPrice := fillPrice, commission := commission, orderId := o.orderId,
          meta := meta })

/-- `on_order` (order_execution_handler.py lines 36-63): stash the order's
meta under its id (`order.meta or {}` — in this model `meta` is always a
record, so the `None` guard is the identity), then simulate the fill —
`_execute_real` (live mode) also delegates to `_simulate_fill` (line 113).
Returns the updated state and the list of fills published. -/
def onOrder (st : ExecState) (o : Order) : ExecState × List Fill :=
  let st1 := { st with orderMeta := fun k => if k = o.orderId then some o.meta else st.orderMeta k }
  if st.mode = "paper" ∨ st.mode = "backtest" then
    let r := simulateFill st1 o
    (r.1, [r.2])
  else
    let r := simulateFill st1 o
    (r.1, [r.2])

/-- Written from the spec's words (§4.6): "compute fill price as order.price
adjusted by slippage = (slippage_bps/10000)×price, added for BUY, subtracted
for SELL; compute commission = (commission_bps/10000)×fill_price×quantity;
retrieve and remove the stashed meta for this order_id and attach it to the
Fill".  Used to compare the simulator's output against the specification. -/
def specFill (st : ExecState) (o : Order) : Fill :=
  let fp :=
    if o.direction = "BUY" then o.price + mkRat st.slippageBps 10000 * o.price
    else o.price - mkRat st.slippageBps 10000 * o.price
  { symbol := o.symbol, quantity := o.quantity, direction := o.direction,
    fillPrice := fp,
    commission := mkRat st.commissionBps 10000 * (fp * o.quantity),
    orderId := o.orderId, meta := o.meta }

/-! ### The signal → order → fill → position chain (C8)

`EventBus.publish` awaits every handler, so one `publish("SIGNAL", …)` runs
`PortfolioHandler.on_signal`, whose `publish("ORDER", …)` runs
`OrderExecutionHandler.on_order`, whose `publish("FILL", …)` runs
`PortfolioHandler.on_fill`, before the original publish returns. -/

structure SysState where
  port : PortfolioState
  exec : ExecState

/-- Publishing one SIGNAL through the full chain; returns the new system
state and how many orders were published on the ORDER topic. -/
def pipelineSignal (st : SysState) (sig : Signal) (orderId : String) :
    SysState × Nat :=
  let r := onSignal st.port sig orderId
  match r.2 with
  | none => ({ st with port := r.1 }, 0)
  | some o =>
    let e := onOrder st.exec o
    let port' := e.2.foldl onFill r.1
    ({ port := port', exec := e.1 }, 1)

/-- Publishing the same SIGNAL repeatedly (one fresh order id per attempt),
counting the orders published. -/
def repeatSignal (st : SysState) (sig : Signal) : List String → SysState × Nat
  | [] => (st, 0)
  | oid :: rest =>
    let r := pipelineSignal st sig oid
    let rr := repeatSignal r.1 sig rest
    (rr.1, r.2 + rr.2)

/-! ## Claim theorems -/

theorem publishResult_ok_iff {α : Type} (hs : List (Handler α)) (d : α) :
    EventBus.publishResult hs d = .ok () ↔
      ∀ h ∈ hs, h.kind = HKind.async → (h.run d).isOk = true := by
  induction hs with
  | nil =>
    simp [EventBus.publishResult, gatherFirstError]
  | cons h t ih =>
    by_cases hk : h.kind = HKind.async
    · have hfil : (h :: t).filter (fun x => x.kind == HKind.async)
          = h :: t.filter (fun x => x.kind == HKind.async) :=
        List.filter_cons_of_pos (by simp [hk])
      unfold EventBus.publishResult at ih ⊢
      rw [hfil, List.map_cons]
      cases hr : h.run d with
      | error e =>
        rw [show gatherFirstError (Except.error e :: (t.filter
              (fun x => x.kind == HKind.async)).map (fun x => x.run d))
            = Except.error e from rfl]
        constructor
        · intro hcontr; exact absurd hcontr (by simp)
        · intro hall
          have hx := hall h (by simp) hk
          rw [hr] at hx
          simp [Except.isOk, Except.toBool] at hx
      | ok u =>
        cases u
        rw [show gatherFirstError (Except.ok () :: (t.filter
              (fun x => x.kind == HKind.async)).map (fun x => x.run d))
            = gatherFirstError ((t.filter
              (fun x => x.kind == HKind.async)).map (fun x => x.run d)) from rfl]
        rw [ih]
        constructor
        · intro hall h' hm hk'
          rcases List.mem_cons.mp hm with rfl | hm'
          · rw [hr]; rfl
          · exact hall h' hm' hk'
        · intro hall h' hm' hk'
          exact hall h' (List.mem_cons_of_mem _ hm') hk'
    · have hfil : (h :: t).filter (fun x => x.kind == HKind.async)
          = t.filter (fun x => x.kind == HKind.async) :=
        List.filter_cons_of_neg (by simp [hk])
      unfold EventBus.publishResult at ih ⊢
      rw [hfil, ih]
      constructor
      · intro hall h' hm hk'
        rcases List.mem_cons.mp hm with rfl | hm'
        · exact absurd hk' hk
        · exact hall h' hm' hk'
      · intro hall h' hm' hk'
        exact hall h' (List.mem_cons_of_mem _ hm') hk'

/-- C1 (amended): `EventBus.publish` leaves the subscriber table unchanged
(so subsequent publishes deliver to the same handler list), and it raises if
and only if some *asynchronous* subscriber of the topic raises; a synchronous
subscriber's exception is caught inside the dispatch loop (logged and
swallowed), not propagated. -/
theorem C1_publish_error_propagation
    {α : Type} (bus : EventBus α) (topic : String) (data : α) :
    (EventBus.publish bus topic data).1 = bus ∧
      ((EventBus.publish bus topic data).2 = .ok () ↔
        ∀ h ∈ bus.subscribers topic, h.kind = HKind.async →
          (h.run data).isOk = true) :=
  ⟨rfl, publishResult_ok_iff _ _⟩

/-- A synchronous subscriber whose body raises. -/
def syncBoom : Handler Nat := ⟨HKind.sync, fun _ => .error "boom"⟩

def busWithFailingSync : EventBus Nat :=
  ⟨fun t => if t = "SIGNAL" then [syncBoom] else []⟩

/-- C1 counterexample: a synchronous handler subscribed to "SIGNAL" raises on
every payload, yet `publish` returns normally (`.ok ()`): the exception does
not propagate to the caller, contradicting the claim as stated. -/
theorem C1_counterexample :
    syncBoom ∈ busWithFailingSync.subscribers "SIGNAL" ∧
      (syncBoom.run 0).isOk = false ∧
      (EventBus.publish busWithFailingSync "SIGNAL" 0).2 = .ok () ∧
      (EventBus.publish busWithFailingSync "SIGNAL" 0).1 = busWithFailingSync := by
  refine ⟨?_, rfl, rfl, rfl⟩
  simp [busWithFailingSync]

/-- C2: in the system `run_engine.py` actually builds, no handler at all is
subscribed to the Stream Router's ordered output topic `ORDERED_MARKET`, and
the aggregator's tick handler is subscribed to the raw inbound topic
`RAW_MARKET` — the candle builder consumes raw, un-ordered ticks, contrary to
the claim (and to the router's own docstring, which says it yields ordered
events to the aggregator). -/
theorem C2_aggregator_reads_raw_topic :
    runEngineSubscriptions.filter (fun p => p.1 == streamRouterOutputTopic) = [] ∧
      ("RAW_MARKET", "CandlestickAggregator.on_tick") ∈ runEngineSubscriptions ∧
      streamRouterOutputTopic = "ORDERED_MARKET" ∧
      aggregatorSubscriptions = [("RAW_MARKET", "CandlestickAggregator.on_tick")] := by
  refine ⟨?_, ?_, rfl, rfl⟩ <;> decide

/-- C5: for every weight mapping, score mapping and last published score, the
manager publishes a new TARGET signal iff the blended score — the weighted
sum over all strategies, treated as exactly 0 when its absolute value is
below the conviction threshold 0.05, then clipped to [-1, 1] — differs from
the last published score by at least 0.05, and the published score is exactly
that blended value; in particular a weighted sum of 0.03 with last published
score 0 publishes nothing. -/
theorem C5_blend_threshold_and_antispam :
    (∀ (w s : String → ℚ) (lastPublished : ℚ),
        ((blendDecision w s lastPublished).isSome = true ↔
          mkRat 5 100 ≤ |thresholdClip (combineScores w s) - lastPublished|) ∧
        (blendDecision w s lastPublished = none ∨
          blendDecision w s lastPublished =
            some (thresholdClip (combineScores w s)))) ∧
      combineScores (fun _ => mkRat 1 5) (fun _ => mkRat 3 100) = mkRat 3 100 ∧
      blendDecision (fun _ => mkRat 1 5) (fun _ => mkRat 3 100) 0 = none := by
  refine ⟨fun w s lastPublished => ⟨?_, ?_⟩, ?_, ?_⟩
  · unfold blendDecision
    dsimp only
    by_cases h : |thresholdClip (combineScores w s) - lastPublished| < mkRat 5 100
    · rw [if_pos h]
      constructor
      · intro hc; exact Bool.noConfusion hc
      · intro hc; exact absurd h (not_lt.mpr hc)
    · rw [if_neg h]
      constructor
      · intro _; exact not_lt.mp h
      · intro _; rfl
  · unfold blendDecision
    dsimp only
    by_cases h : |thresholdClip (combineScores w s) - lastPublished| < mkRat 5 100
    · exact Or.inl (by rw [if_pos h])
    · exact Or.inr (by rw [if_neg h])
  · with_unfolding_all decide
  · with_unfolding_all decide

/-- C6 (amended): for a TARGET signal whose meta carries a nonempty per-alpha
score mapping, the ledger computes `target = clamp(score,-1,1) *
max_units[symbol]` and `delta = target - position[symbol]`; it places no
order when `|delta| < max(4e-4, 1e-6)` and otherwise emits exactly one order
with quantity `|delta|`, direction BUY iff `delta > 0`, the signal's price,
the supplied (wall-clock-generated) order id, and the signal's meta carried
untouched. -/
theorem C6_on_signal_sizing (st : PortfolioState) (sig : Signal) (oid : String)
    (hdir : sig.direction = "TARGET") (hscores : sig.meta.scores ≠ []) :
    (onSignal st sig oid).2 =
      (if |max (-1) (min 1 sig.score) * st.maxUnits (pyUpper sig.symbol)
            - st.positions (pyUpper sig.symbol)|
          < max DELTA_THRESHOLD MIN_TRADE_UNITS then none
       else some
        { symbol := pyUpper sig.symbol,
          quantity := |max (-1) (min 1 sig.score) * st.maxUnits (pyUpper sig.symbol)
            - st.positions (pyUpper sig.symbol)|,
          direction :=
            if max (-1) (min 1 sig.score) * st.maxUnits (pyUpper sig.symbol)
                - st.positions (pyUpper sig.symbol) > 0 then "BUY" else "SELL",
          price := sig.price, orderId := oid, meta := sig.meta }) := by
  unfold onSignal
  rw [if_neg (by simp [hdir])]
  dsimp only
  rw [if_neg hscores]
  by_cases habs : |max (-1) (min 1 sig.score) * st.maxUnits (pyUpper sig.symbol)
      - st.positions (pyUpper sig.symbol)| < max DELTA_THRESHOLD MIN_TRADE_UNITS
  · simp [habs]
  · simp [habs]

def st0 : PortfolioState :=
  { cash := mkRat 100000 1, positions := fun _ => 0, lastPrices := fun _ => 0,
    maxUnits := fun _ => DEFAULT_MAX_UNITS, alphaVirtPos := fun _ _ => 0 }

def sig08 : Signal :=
  { symbol := "BTCUSDT", direction := "TARGET", score := mkRat 8 10,
    price := mkRat 5 1, meta := { alpha := "multi", scores := [("momentum", mkRat 8 10)] } }

/-- C6 witness: score 0.8, max_units 0.01, position 0 yields exactly
`Order{BUY, qty = 0.008}` with the signal's meta untouched. -/
theorem C6_witness :
    (onSignal st0 sig08 "ORD-1").2 =
      some { symbol := "BTCUSDT", quantity := mkRat 8 1000, direction := "BUY",
             price := mkRat 5 1, orderId := "ORD-1", meta := sig08.meta } := by
  have h := C6_on_signal_sizing st0 sig08 "ORD-1" rfl (by decide)
  rw [h]
  with_unfolding_all decide

def sigEmptyScores : Signal :=
  { symbol := "BTCUSDT", direction := "TARGET", score := mkRat 8 10,
    price := mkRat 5 1, meta := { alpha := "multi", scores := [] } }

/-- C6 counterexample: a TARGET signal whose meta has no scores entry gets
its meta *modified* — `on_signal` injects `{"scores": {"GENERIC": score}}` —
so the emitted order's meta is not the signal's meta carried untouched, as
the claim states. -/
theorem C6_counterexample :
    (onSignal st0 sigEmptyScores "ORD-1").2.map Order.meta =
        some { alpha := "multi", scores := [("GENERIC", mkRat 8 10)] } ∧
      ({ alpha := "multi", scores := [("GENERIC", mkRat 8 10)] } : Meta)
        ≠ sigEmptyScores.meta := by
  constructor
  · with_unfolding_all decide
  · decide

/-- C7: for every order, in every mode, the simulator publishes exactly one
fill, and that fill is the one the spec prescribes: same order id, fill price
= order price ± (slippage_bps/10000)·price (+ for BUY, − for SELL),
commission = (commission_bps/10000)·fill_price·quantity, the stashed meta
reattached — and the order id is no longer in the side-table afterwards. -/
theorem C7_exactly_one_fill (st : ExecState) (o : Order) :
    (onOrder st o).2 = [specFill st o] ∧
      (specFill st o).orderId = o.orderId ∧
      (specFill st o).meta = o.meta ∧
      (onOrder st o).1.orderMeta o.orderId = none := by
  unfold onOrder simulateFill specFill
  split <;> simp

/-- C10: a TARGET signal whose computed |delta| falls below the noise floor
produces no order, yet still mutates the ledger: `last_prices[symbol]` is set
to the signal's price (the mark-price write precedes the noise check), while
cash, every position quantity, max_units and the per-alpha virtual-position
attribution map are untouched. -/
theorem C10_discarded_signal_frame (st : PortfolioState) (sig : Signal)
    (oid : String) (hdir : sig.direction = "TARGET")
    (hsmall : |max (-1) (min 1 sig.score) * st.maxUnits (pyUpper sig.symbol)
        - st.positions (pyUpper sig.symbol)|
      < max DELTA_THRESHOLD MIN_TRADE_UNITS) :
    (onSignal st sig oid).2 = none ∧
      (onSignal st sig oid).1.lastPrices =
        fupd st.lastPrices (pyUpper sig.symbol) sig.price ∧
      (onSignal st sig oid).1.lastPrices (pyUpper sig.symbol) = sig.price ∧
      (onSignal st sig oid).1.cash = st.cash ∧
      (onSignal st sig oid).1.positions = st.positions ∧
      (onSignal st sig oid).1.maxUnits = st.maxUnits ∧
      (onSignal st sig oid).1.alphaVirtPos = st.alphaVirtPos := by
  unfold onSignal
  rw [if_neg (by simp [hdir])]
  dsimp only
  rw [if_pos hsmall]
  exact ⟨rfl, rfl, fupd_same _ _ _, rfl, rfl, rfl, rfl⟩

def sigHold : Signal :=
  { symbol := "BTCUSDT", direction := "TARGET", score := 0,
    price := mkRat 3 1, meta := { alpha := "multi", scores := [("momentum", 0)] } }

/-- C10 witness: a zero-score TARGET signal against a flat book is discarded
(no order) but the mark price is updated to the signal's price. -/
theorem C10_witness :
    (onSignal st0 sigHold "ORD-2").2 = none ∧
      (onSignal st0 sigHold "ORD-2").1.lastPrices "BTCUSDT" = mkRat 3 1 ∧
      (onSignal st0 sigHold "ORD-2").1.cash = st0.cash := by
  have h := C10_discarded_signal_frame st0 sigHold "ORD-2" rfl
    (by with_unfolding_all decide)
  refine ⟨h.1, ?_, h.2.2.2.1⟩
  rw [h.2.1]
  with_unfolding_all decide

/-! ### C8: noise-floor idempotence of the signal→order→fill chain -/

theorem pyUpperBUY : pyUpper "BUY" = "BUY" := by decide

theorem pyUpperSELL : pyUpper "SELL" = "SELL" := by decide

theorem noiseFloorPos : (0 : ℚ) < max DELTA_THRESHOLD MIN_TRADE_UNITS := by
  with_unfolding_all decide

theorem onOrder_fills (st : ExecState) (o : Order) :
    (onOrder st o).2 = [specFill st o] := by
  unfold onOrder simulateFill specFill
  split <;> simp

theorem onFill_positions (st : PortfolioState) (f : Fill) :
    (onFill st f).positions = fupd st.positions (pyUpper f.symbol)
      (st.positions (pyUpper f.symbol) +
        (if pyUpper f.direction = "BUY" then f.quantity else -f.quantity)) := rfl

theorem onFill_maxUnits (st : PortfolioState) (f : Fill) :
    (onFill st f).maxUnits = st.maxUnits := rfl

theorem onSignal_discard_eq (st : PortfolioState) (sig : Signal) (oid : String)
    (hdir : sig.direction = "TARGET")
    (hsmall : |max (-1) (min 1 sig.score) * st.maxUnits (pyUpper sig.symbol)
        - st.positions (pyUpper sig.symbol)| < max DELTA_THRESHOLD MIN_TRADE_UNITS) :
    onSignal st sig oid =
      ({ st with lastPrices := fupd st.lastPrices (pyUpper sig.symbol) sig.price },
       none) := by
  unfold onSignal
  rw [if_neg (by simp [hdir])]
  dsimp only
  rw [if_pos hsmall]

/-- After one publish of a TARGET signal through the chain, either nothing
was ordered and the positions are untouched, or the symbol's position sits
exactly at the signal's target `clamp(score) * max_units[symbol]`; `max_units`
is never modified. -/
theorem pipelineSignal_spec (st : SysState) (sig : Signal) (oid : String)
    (hdir : sig.direction = "TARGET") :
    (pipelineSignal st sig oid).1.port.maxUnits = st.port.maxUnits ∧
      ((pipelineSignal st sig oid).2 = 0 ∧
          (pipelineSignal st sig oid).1.port.positions = st.port.positions ∨
        (pipelineSignal st sig oid).1.port.positions (pyUpper sig.symbol)
          = max (-1) (min 1 sig.score) * st.port.maxUnits (pyUpper sig.symbol)) := by
  unfold pipelineSignal onSignal
  rw [if_neg (by simp [hdir])]
  dsimp only
  by_cases habs : |max (-1) (min 1 sig.score) * st.port.maxUnits (pyUpper sig.symbol)
      - st.port.positions (pyUpper sig.symbol)| < max DELTA_THRESHOLD MIN_TRADE_UNITS
  · rw [if_pos habs]
    exact ⟨rfl, Or.inl ⟨rfl, rfl⟩⟩
  · rw [if_neg habs]
    dsimp only
    rw [onOrder_fills]
    dsimp only [List.foldl]
    constructor
    · rw [onFill_maxUnits]
    · refine Or.inr ?_
      rw [onFill_positions]
      dsimp only [specFill]
      rw [pyUpper_pyUpper]
      rw [fupd_same]
      by_cases hd : max (-1) (min 1 sig.score) * st.port.maxUnits (pyUpper sig.symbol)
          - st.port.positions (pyUpper sig.symbol) > 0
      · rw [if_pos hd, pyUpperBUY, if_pos rfl,
          abs_of_pos hd]
        ring
      · rw [if_neg hd, pyUpperSELL, if_neg (by decide),
          abs_of_nonpos (le_of_not_lt hd)]
        ring

theorem pipelineSignal_le_one (st : SysState) (sig : Signal) (oid : String) :
    (pipelineSignal st sig oid).2 ≤ 1 := by
  unfold pipelineSignal
  dsimp only
  cases h : (onSignal st.port sig oid).2 with
  | none => exact Nat.zero_le 1
  | some o => exact Nat.le_refl 1

/-- Once the symbol's position sits at the signal's target, re-publishing the
same signal yields `delta = 0`, below the noise floor: no further orders. -/
theorem repeatSignal_absorbed (sig : Signal) (hdir : sig.direction = "TARGET") :
    ∀ (oids : List String) (st : SysState),
      st.port.positions (pyUpper sig.symbol)
        = max (-1) (min 1 sig.score) * st.port.maxUnits (pyUpper sig.symbol) →
      (repeatSignal st sig oids).2 = 0 := by
  intro oids
  induction oids with
  | nil => intro st _; rfl
  | cons oid rest ih =>
    intro st hinv
    have hsmall : |max (-1) (min 1 sig.score) * st.port.maxUnits (pyUpper sig.symbol)
        - st.port.positions (pyUpper sig.symbol)|
          < max DELTA_THRESHOLD MIN_TRADE_UNITS := by
      rw [hinv, sub_self, abs_zero]
      exact noiseFloorPos
    have hsig := onSignal_discard_eq st.port sig oid hdir hsmall
    unfold repeatSignal pipelineSignal
    dsimp only
    rw [hsig]
    dsimp only
    have h2 : (repeatSignal
        { port := { st.port with
            lastPrices := fupd st.port.lastPrices (pyUpper sig.symbol) sig.price },
          exec := st.exec } sig rest).2 = 0 := ih _ hinv
    rw [h2]

/-- C8: publishing the same TARGET-score signal repeatedly through the full
signal → order → fill → position-update chain (each publish awaiting its
handlers to completion) produces at most one order: once the first order's
fill moves the position to the target, every further identical signal has
|delta| = 0, below the noise floor, and is discarded. -/
theorem C8_repeat_signal_at_most_one_order (st : SysState) (sig : Signal)
    (oids : List String) (hdir : sig.direction = "TARGET") :
    (repeatSignal st sig oids).2 ≤ 1 := by
  induction oids generalizing st with
  | nil => exact Nat.le_succ 0
  | cons oid rest ih =>
    unfold repeatSignal
    dsimp only
    rcases (pipelineSignal_spec st sig oid hdir).2 with ⟨h0, _⟩ | htarget
    · rw [h0]
      simpa using ih (pipelineSignal st sig oid).1
    · have hmax := (pipelineSignal_spec st sig oid hdir).1
      have hrest := repeatSignal_absorbed sig hdir rest (pipelineSignal st sig oid).1
        (by rw [htarget, hmax])
      rw [hrest]
      have hone := pipelineSignal_le_one st sig oid
      omega

def exec0 : ExecState := { mode := "paper", slippageBps := 3, commissionBps := 1,
                           orderMeta := fun _ => none }

/-- C8 witness: three repeats of the 0.8-score signal from a flat book place
at most one order. -/
theorem C8_witness :
    (repeatSignal { port := st0, exec := exec0 } sig08 ["O1", "O2", "O3"]).2 ≤ 1 :=
  C8_repeat_signal_at_most_one_order { port := st0, exec := exec0 } sig08
    ["O1", "O2", "O3"] rfl

/-! ### C4: the candle invariant -/

theorem bucketStart_dvd (ts secs : Nat) (h : secs ∣ 3600) :
    secs ∣ bucketStart ts secs := by
  unfold bucketStart
  dsimp only
  have ht : ts - ts % 60 = 60 * (ts / 60) := by omega
  rw [ht]
  have hq : 60 * (ts / 60) / 60 = ts / 60 := by omega
  rw [hq]
  set q := ts / 60 with hq2
  have h1 : q % 60 * 60 ≤ 60 * q := by
    have := Nat.mod_le q 60
    omega
  have h2 : 60 * q = 3600 * (q / 60) + 60 * (q % 60) := by omega
  have h3 : q % 60 * 60 % secs ≤ q % 60 * 60 := Nat.mod_le _ _
  have hsplit : 60 * q - q % 60 * 60 % secs
      = 3600 * (q / 60) + (q % 60 * 60 - q % 60 * 60 % secs) := by omega
  rw [hsplit]
  exact Nat.dvd_add (Dvd.dvd.mul_right h _) (Nat.dvd_sub_mod _)

/-- The candle well-formedness stated by the spec: `high`/`low` bound `open`
and `close`, and the bucket start is timeframe-aligned for every configured
timeframe whose duration divides one hour. -/
def CandleOk (tfs : List (String × Nat)) (c : Candle) : Prop :=
  max c.open_ c.close ≤ c.high ∧ c.low ≤ min c.open_ c.close ∧
    ∀ secs, (c.tf, secs) ∈ tfs → secs ∣ 3600 → secs ∣ c.start

theorem keyVal_eq_of_nodup {l : List (String × Nat)} (hnd : (l.map Prod.fst).Nodup)
    {a : String} {b c : Nat} (h1 : (a, b) ∈ l) (h2 : (a, c) ∈ l) : b = c := by
  induction l with
  | nil => cases h1
  | cons x xs ih =>
    rw [List.map_cons, List.nodup_cons] at hnd
    rcases List.mem_cons.mp h1 with h1' | h1' <;>
      rcases List.mem_cons.mp h2 with h2' | h2'
    · rw [← h1'] at h2'
      exact (Prod.ext_iff.mp h2').2.symm
    · exfalso
      apply hnd.1
      rw [← h1']
      exact List.mem_map.mpr ⟨(a, c), h2', rfl⟩
    · exfalso
      apply hnd.1
      rw [← h2']
      exact List.mem_map.mpr ⟨(a, b), h1', rfl⟩
    · exact ih hnd.2 h1' h2'

theorem updateTF_ok {tfs : List (String × Nat)} (hnd : (tfs.map Prod.fst).Nodup)
    {tf : String} {secs : Nat} (htf : (tf, secs) ∈ tfs)
    (p v : ℚ) (ts : Nat) (buf : List Candle)
    (hbuf : ∀ c ∈ buf, c.tf = tf ∧ CandleOk tfs c) :
    (∀ c ∈ (updateTF tf secs p v ts buf).1, c.tf = tf ∧ CandleOk tfs c) ∧
      (∀ c ∈ (updateTF tf secs p v ts buf).2, CandleOk tfs c) := by
  have hnew : (newCandle (bucketStart ts secs) tf p v).tf = tf ∧
      CandleOk tfs (newCandle (bucketStart ts secs) tf p v) := by
    refine ⟨rfl, by simp [newCandle, CandleOk], by simp [newCandle, CandleOk], ?_⟩
    intro secs' hmem hdvd
    have hse : secs' = secs := keyVal_eq_of_nodup hnd hmem htf
    subst hse
    exact bucketStart_dvd ts secs' hdvd
  unfold updateTF
  dsimp only
  cases hlast : buf.getLast? with
  | none =>
    refine ⟨?_, ?_⟩
    · intro c hc
      rw [List.mem_singleton.mp hc]
      exact hnew
    · intro c hc
      exact absurd hc (List.not_mem_nil c)
  | some last =>
    dsimp only
    have hlastmem : last ∈ buf := List.mem_of_getLast?_eq_some hlast
    have hlastok := hbuf last hlastmem
    by_cases hne : last.start ≠ bucketStart ts secs
    · rw [if_pos hne]
      dsimp only
      have hclosed : ({ last with tf := tf } : Candle).tf = tf ∧
          CandleOk tfs { last with tf := tf } := by
        refine ⟨rfl, hlastok.2.1, hlastok.2.2.1, ?_⟩
        intro secs' hmem hdvd
        exact hlastok.2.2.2 secs' (by rw [hlastok.1]; exact hmem) hdvd
      refine ⟨?_, ?_⟩
      · intro c hc
        rcases List.mem_append.mp hc with hc' | hc'
        · exact hbuf c (List.dropLast_subset _ hc')
        · rcases List.mem_cons.mp hc' with rfl | hc''
          · exact hclosed
          · rw [List.mem_singleton.mp hc'']
            exact hnew
      · intro c hc
        rw [List.mem_singleton.mp hc]
        exact hclosed.2
    · rw [if_neg hne]
      dsimp only
      refine ⟨?_, ?_⟩
      · intro c hc
        rcases List.mem_append.mp hc with hc' | hc'
        · exact hbuf c (List.dropLast_subset _ hc')
        · rw [List.mem_singleton.mp hc']
          refine ⟨hlastok.1, ?_, ?_, ?_⟩
          · exact max_le_max
              (le_trans (le_max_left _ _) hlastok.2.1) (le_refl p)
          · exact min_le_min
              (le_trans hlastok.2.2.1 (min_le_left _ _)) (le_refl p)
          · intro secs' hmem hdvd
            exact hlastok.2.2.2 secs' hmem hdvd
      · intro c hc
        exact absurd hc (List.not_mem_nil c)

theorem updateTick_ok {tfs : List (String × Nat)} (hnd : (tfs.map Prod.fst).Nodup)
    (p v : ℚ) (ts : Nat) :
    ∀ (l : List (String × Nat)) (acc : (String → List Candle) × List Candle),
      (∀ q ∈ l, q ∈ tfs) →
      (∀ tf c, c ∈ acc.1 tf → c.tf = tf ∧ CandleOk tfs c) →
      (∀ c ∈ acc.2, CandleOk tfs c) →
      (∀ tf c, c ∈ (l.foldl
          (fun acc q =>
            let r := updateTF q.1 q.2 p v ts (acc.1 q.1)
            (fupd acc.1 q.1 r.1, acc.2 ++ r.2)) acc).1 tf →
          c.tf = tf ∧ CandleOk tfs c) ∧
        ∀ c ∈ (l.foldl
          (fun acc q =>
            let r := updateTF q.1 q.2 p v ts (acc.1 q.1)
            (fupd acc.1 q.1 r.1, acc.2 ++ r.2)) acc).2, CandleOk tfs c := by
  intro l
  induction l with
  | nil => intro acc _ hb he; exact ⟨hb, he⟩
  | cons q rest ih =>
    intro acc hl hb he
    rw [List.foldl_cons]
    have hq : q ∈ tfs := hl q (List.mem_cons_self q rest)
    have hmemq : (q.1, q.2) ∈ tfs := by rw [Prod.mk.eta]; exact hq
    have hbq : ∀ c ∈ acc.1 q.1, c.tf = q.1 ∧ CandleOk tfs c := fun c hc => hb q.1 c hc
    have hstep := updateTF_ok hnd hmemq p v ts (acc.1 q.1) hbq
    refine ih _ (fun x hx => hl x (List.mem_cons_of_mem q hx)) ?_ ?_
    · intro tf c hc
      dsimp only at hc
      by_cases htfq : tf = q.1
      · subst htfq
        rw [fupd_same] at hc
        exact hstep.1 c hc
      · rw [fupd_other _ _ _ _ htfq] at hc
        exact hb tf c hc
    · intro c hc
      dsimp only at hc
      rcases List.mem_append.mp hc with hc' | hc'
      · exact he c hc'
      · exact hstep.2 c hc'

/-- C4 (amended): every candle the aggregator closes and emits has
`high ≥ max(open, close)` and `low ≤ min(open, close)`; and for every
configured timeframe whose duration in seconds divides one hour (which
includes the default `1m`, `5m`, `1h` set), the candle's `bucket_start` is an
exact multiple of the timeframe duration since epoch.  (For a configurable
timeframe such as `"2h"` whose duration does not divide an hour, the
alignment clause fails — see the counterexample.) -/
theorem C4_candle_invariant (tfs : List (String × Nat)) (ticks : List (ℚ × ℚ × Nat))
    (hnd : (tfs.map Prod.fst).Nodup) :
    ∀ c ∈ (aggRun tfs ticks).2,
      max c.open_ c.close ≤ c.high ∧ c.low ≤ min c.open_ c.close ∧
        ∀ secs, (c.tf, secs) ∈ tfs → secs ∣ 3600 → secs ∣ c.start := by
  have main : ∀ (ticks' : List (ℚ × ℚ × Nat))
      (acc : (String → List Candle) × List Candle),
      (∀ tf c, c ∈ acc.1 tf → c.tf = tf ∧ CandleOk tfs c) →
      (∀ c ∈ acc.2, CandleOk tfs c) →
      ∀ c ∈ (ticks'.foldl
          (fun acc t =>
            let r := updateTick tfs acc.1 t.1 t.2.1 t.2.2
            (r.1, acc.2 ++ r.2)) acc).2, CandleOk tfs c := by
    intro ticks'
    induction ticks' with
    | nil => intro acc _ he; exact he
    | cons t rest ih =>
      intro acc hb he
      rw [List.foldl_cons]
      have hstep := updateTick_ok hnd t.1 t.2.1 t.2.2 tfs (acc.1, [])
        (fun x hx => hx) hb (fun c hc => absurd hc (List.not_mem_nil c))
      refine ih _ ?_ ?_
      · intro tf c hc
        exact hstep.1 tf c hc
      · intro c hc
        dsimp only at hc
        rcases List.mem_append.mp hc with hc' | hc'
        · exact he c hc'
        · exact hstep.2 c hc'
  intro c hc
  have := main ticks (fun _ => [], [])
    (fun tf c hc => absurd hc (List.not_mem_nil c))
    (fun c hc => absurd hc (List.not_mem_nil c)) c hc
  exact this

def tfs1m : List (String × Nat) := [("1m", 60)]

def ticks1m : List (ℚ × ℚ × Nat) := [(mkRat 2 1, 0, 60), (mkRat 3 1, 0, 125)]

def candle1m : Candle :=
  { start := 60, tf := "1m", open_ := mkRat 2 1, high := mkRat 2 1,
    low := mkRat 2 1, close := mkRat 2 1, volume := 0 }

/-- C4 witness: a 1-minute aggregator fed a tick at epoch 60 and one at 125
closes the first candle; the closed candle satisfies the bounds and its
bucket start 60 is a multiple of the 60-second timeframe. -/
theorem C4_witness :
    candle1m ∈ (aggRun tfs1m ticks1m).2 ∧
      max candle1m.open_ candle1m.close ≤ candle1m.high ∧
      candle1m.low ≤ min candle1m.open_ candle1m.close ∧
      (60 : Nat) ∣ candle1m.start := by
  have hmem : candle1m ∈ (aggRun tfs1m ticks1m).2 := by
    with_unfolding_all decide
  have h := C4_candle_invariant tfs1m ticks1m (by decide) candle1m hmem
  exact ⟨hmem, h.1, h.2.1, h.2.2 60 (by decide) (by decide)⟩

def ticks2h : List (ℚ × ℚ × Nat) := [(mkRat 2 1, 0, 3600), (mkRat 3 1, 0, 10800)]

def candle2h : Candle :=
  { start := 3600, tf := "2h", open_ := mkRat 2 1, high := mkRat 2 1,
    low := mkRat 2 1, close := mkRat 2 1, volume := 0 }

/-- C4 counterexample: `"2h"` is a configurable timeframe
(`_parse_timeframes` accepts it, 7200 s), but an aggregator configured with
it and fed a tick at 01:00 UTC closes a candle whose `bucket_start` (epoch
3600) is *not* a multiple of the timeframe duration 7200 — the alignment
clause of the claim fails for configured timeframes that do not divide an
hour. -/
theorem C4_counterexample :
    parseTimeframes ["2h"] = some [("2h", 7200)] ∧
      (aggRun [("2h", 7200)] ticks2h).2 = [candle2h] ∧
      ¬ (7200 ∣ candle2h.start) := by
  refine ⟨by decide, ?_, by decide⟩
  simp [aggRun, ticks2h, updateTick, updateTF, bucketStart, newCandle, fupd, candle2h]

/-! ### C9: heap ties raise `TypeError`; distinct timestamps are safe -/

theorem cmpLtE_self {α : Type} [DecidableEq α] (x : ℚ × α) :
    cmpLtE x x = .ok false := by
  simp [cmpLtE]

theorem cmpLtE_ne_epoch {α : Type} [DecidableEq α] {x y : ℚ × α} (h : x.1 ≠ y.1) :
    cmpLtE x y = .ok (decide (x.1 < y.1)) := by
  simp [cmpLtE, h]

theorem siftdownAux_mem {α : Type} [DecidableEq α] (newitem : ℚ × α) :
    ∀ (fuel : Nat) (l : List (ℚ × α)) (pos : Nat) (l' : List (ℚ × α)),
      siftdownAux newitem l pos fuel = .ok l' →
      ∀ x ∈ l', x ∈ l ∨ x = newitem := by
  intro fuel
  induction fuel with
  | zero =>
    intro l pos l' h x hx
    unfold siftdownAux at h
    by_cases hp : pos = 0
    · rw [if_pos hp] at h
      cases h
      exact List.mem_or_eq_of_mem_set hx
    · rw [if_neg hp] at h
      dsimp only at h
      cases h
      exact List.mem_or_eq_of_mem_set hx
  | succ fuel ih =>
    intro l pos l' h x hx
    unfold siftdownAux at h
    by_cases hp : pos = 0
    · rw [if_pos hp] at h
      cases h
      exact List.mem_or_eq_of_mem_set hx
    · rw [if_neg hp] at h
      dsimp only at h
      cases hc : cmpLtE newitem ((l.get? ((pos - 1) / 2)).getD newitem) with
      | error e =>
        rw [hc] at h
        cases h
      | ok b =>
        rw [hc] at h
        cases b with
        | false =>
          dsimp only at h
          cases h
          exact List.mem_or_eq_of_mem_set hx
        | true =>
          dsimp only at h
          have hrec := ih _ _ _ h x hx
          rcases hrec with hx' | hx'
          · rcases List.mem_or_eq_of_mem_set hx' with hx'' | hx''
            · exact Or.inl hx''
            · subst hx''
              cases hgp : l.get? ((pos - 1) / 2) with
              | none => exact Or.inr rfl
              | some p => exact Or.inl (by simpa using List.get?_mem hgp)
          · exact Or.inr hx'

theorem siftdownAux_ok {α : Type} [DecidableEq α] (newitem : ℚ × α) :
    ∀ (fuel : Nat) (l : List (ℚ × α)) (pos : Nat),
      (∀ x ∈ l, (cmpLtE newitem x).isOk = true ∨ x = newitem) →
      ∃ l', siftdownAux newitem l pos fuel = .ok l' := by
  intro fuel
  induction fuel with
  | zero =>
    intro l pos _
    unfold siftdownAux
    by_cases hp : pos = 0
    · rw [if_pos hp]; exact ⟨_, rfl⟩
    · rw [if_neg hp]; exact ⟨_, rfl⟩
  | succ fuel ih =>
    intro l pos hcmp
    unfold siftdownAux
    by_cases hp : pos = 0
    · rw [if_pos hp]; exact ⟨_, rfl⟩
    · rw [if_neg hp]
      dsimp only
      have hparent : (cmpLtE newitem ((l.get? ((pos - 1) / 2)).getD newitem)).isOk = true := by
        cases hgp : l.get? ((pos - 1) / 2) with
        | none => simp [cmpLtE_self, Except.isOk, Except.toBool]
        | some p =>
          have hmem : p ∈ l := List.get?_mem hgp
          rcases hcmp p hmem with hok | hself
          · simpa using hok
          · subst hself
            simp [cmpLtE_self, Except.isOk, Except.toBool]
      cases hc : cmpLtE newitem ((l.get? ((pos - 1) / 2)).getD newitem) with
      | error e => rw [hc] at hparent; simp [Except.isOk, Except.toBool] at hparent
      | ok b =>
        cases b with
        | false => exact ⟨_, rfl⟩
        | true =>
          apply ih
          intro x hx
          rcases List.mem_or_eq_of_mem_set hx with hx' | hx'
          · exact hcmp x hx'
          · subst hx'
            cases hgp : l.get? ((pos - 1) / 2) with
            | none => exact Or.inr rfl
            | some p =>
              have hmem : p ∈ l := List.get?_mem hgp
              simpa using hcmp p hmem

theorem heappushE_mem {α : Type} [DecidableEq α] {item : ℚ × α} {l l' : List (ℚ × α)}
    (h : heappushE item l = .ok l') : ∀ x ∈ l', x ∈ l ∨ x = item := by
  intro x hx
  rcases siftdownAux_mem item l.length (l ++ [item]) l.length l' h x hx with hx' | hx'
  · rcases List.mem_append.mp hx' with hx'' | hx''
    · exact Or.inl hx''
    · exact Or.inr (List.mem_singleton.mp hx'')
  · exact Or.inr hx'

theorem heappushE_ok {α : Type} [DecidableEq α] {item : ℚ × α} {l : List (ℚ × α)}
    (h : ∀ x ∈ l, x.1 ≠ item.1) : ∃ l', heappushE item l = .ok l' := by
  apply siftdownAux_ok
  intro x hx
  rcases List.mem_append.mp hx with hx' | hx'
  · left
    rw [cmpLtE_ne_epoch (fun he => h x hx' (he ▸ rfl))]
    rfl
  · exact Or.inr (List.mem_singleton.mp hx')

/-- Distinct buffered epochs make the consumer's heap pushes exception-free. -/
theorem consumerRun_ok {α : Type} [DecidableEq α] (bufferMs : ℚ) :
    ∀ (arrs : List (ℚ × ℚ × α)) (st : RouterState α),
      st.ok = true →
      (arrs.map (fun a => a.2.1)).Pairwise (· ≠ ·) →
      (∀ x ∈ st.buffer, ∀ a ∈ arrs, x.1 ≠ a.2.1) →
      (arrs.foldl (consumerStep bufferMs) st).ok = true := by
  intro arrs
  induction arrs with
  | nil => intro st hok _ _; exact hok
  | cons a rest ih =>
    intro st hok hpw hbuf
    rw [List.foldl_cons]
    rw [List.map_cons, List.pairwise_cons] at hpw
    have hpush : ∃ buf', heappushE (a.2.1, a.2.2) st.buffer = .ok buf' :=
      heappushE_ok (fun x hx => hbuf x hx a (List.mem_cons_self a rest))
    obtain ⟨buf', hbuf'⟩ := hpush
    have hstep : consumerStep bufferMs st a =
        (if (a.1 - st.lastFlush) * 1000 ≥ bufferMs ∨ buf'.length > 50 then
          { buffer := [], lastFlush := a.1,
            batches := st.batches ++ [flushSorted buf'], ok := true }
         else { st with buffer := buf' }) := by
      unfold consumerStep
      rw [if_neg (by simp [hok]), hbuf']
    rw [hstep]
    by_cases hfl : (a.1 - st.lastFlush) * 1000 ≥ bufferMs ∨ buf'.length > 50
    · rw [if_pos hfl]
      apply ih _ rfl hpw.2
      intro x hx
      exact absurd hx (List.not_mem_nil x)
    · rw [if_neg hfl]
      refine ih { st with buffer := buf' } hok hpw.2 ?_
      intro x hx b hb
      rcases heappushE_mem hbuf' x hx with hx' | hx'
      · exact hbuf x hx' b (List.mem_cons_of_mem a hb)
      · rw [hx']
        exact hpw.1 b.2.1 (List.mem_map_of_mem _ hb)

def tickA : Tick := { symbol := "BTCUSDT", price := mkRat 1 1, volume := 0, tsEpoch := mkRat 10 1 }

def tickB : Tick := { symbol := "BTCUSDT", price := mkRat 2 1, volume := 0, tsEpoch := mkRat 10 1 }

/-- C9: two ticks with exactly equal timestamps but different payloads crash
the per-symbol consumer — `heapq.heappush` compares the `(epoch, dict)`
tuples, ties on the epoch and falls through to `dict < dict`, raising an
unhandled `TypeError` (the run's `ok` flag is false and nothing else is
processed); and buffering is exception-free whenever all of a symbol's
buffered ticks carry pairwise distinct timestamps. -/
theorem C9_equal_timestamps_raise :
    ((consumerRun (mkRat 200 1) 0
        [((0 : ℚ), mkRat 10 1, tickA), (mkRat 1 100, mkRat 10 1, tickB)]).ok = false
      ∧ tickA ≠ tickB ∧ tickA.tsEpoch = tickB.tsEpoch) ∧
      ∀ (bufferMs t0 : ℚ) (arrivals : List (ℚ × ℚ × Tick)),
        (arrivals.map (fun a => a.2.1)).Pairwise (· ≠ ·) →
        (consumerRun bufferMs t0 arrivals).ok = true := by
  constructor
  · refine ⟨?_, by decide, by decide⟩
    with_unfolding_all decide
  · intro bufferMs t0 arrivals hpw
    exact consumerRun_ok bufferMs arrivals ⟨[], t0, [], true⟩ rfl hpw
      (fun x hx => absurd hx (List.not_mem_nil x))

/-- C9 witness: the same two payloads with distinct timestamps buffer without
raising. -/
theorem C9_witness :
    (consumerRun (mkRat 200 1) 0
        [((0 : ℚ), mkRat 5 1, tickA), (mkRat 1 100, mkRat 7 1, tickB)]).ok = true :=
  C9_equal_timestamps_raise.2 (mkRat 200 1) 0
    [((0 : ℚ), mkRat 5 1, tickA), (mkRat 1 100, mkRat 7 1, tickB)] (by decide)

/-! ### C3: per-symbol emission is non-decreasing in timestamp -/

instance epochLeTotal {α : Type} : IsTotal (ℚ × α) (fun a b => a.1 ≤ b.1) :=
  ⟨fun a b => le_total a.1 b.1⟩

instance epochLeTrans {α : Type} : IsTrans (ℚ × α) (fun a b => a.1 ≤ b.1) :=
  ⟨fun _ _ _ => le_trans⟩

theorem flushSorted_sorted {α : Type} (buffer : List (ℚ × α)) :
    (flushSorted buffer).Pairwise (fun a b => a.1 ≤ b.1) :=
  List.sorted_insertionSort _ buffer

theorem flushSorted_mem {α : Type} (buffer : List (ℚ × α)) (x : ℚ × α) :
    x ∈ flushSorted buffer ↔ x ∈ buffer :=
  (List.perm_insertionSort _ buffer).mem_iff

/-- The epoch of the `i`-th input tick. -/
def epochAt (input : List (ℚ × ℚ × Tick)) (i : Nat) : ℚ :=
  (input.getD i default).2.1

/-- Invariant of the tagged consumer run after `n` arrivals: every entry in
the buffer or a batch is a tagged copy of an earlier input element (index
`< n`, epoch equal to that input's epoch); batches hold index-wise earlier
entries than later batches and than the buffer; and each batch is sorted by
epoch. -/
def RInv (input : List (ℚ × ℚ × Tick)) (n : Nat)
    (st : RouterState (Nat × Tick)) : Prop :=
  (∀ x ∈ st.buffer, x.2.1 < n ∧ x.2.1 < input.length ∧ x.1 = epochAt input x.2.1) ∧
  (∀ b ∈ st.batches, ∀ x ∈ b,
      x.2.1 < n ∧ x.2.1 < input.length ∧ x.1 = epochAt input x.2.1) ∧
  st.batches.Pairwise (fun b1 b2 => ∀ x ∈ b1, ∀ y ∈ b2, x.2.1 < y.2.1) ∧
  (∀ b ∈ st.batches, ∀ x ∈ b, ∀ y ∈ st.buffer, x.2.1 < y.2.1) ∧
  (∀ b ∈ st.batches, b.Pairwise (fun x y => x.1 ≤ y.1))

theorem RInv_mono {input : List (ℚ × ℚ × Tick)} {n m : Nat}
    {st : RouterState (Nat × Tick)} (h : RInv input n st) (hnm : n ≤ m) :
    RInv input m st := by
  obtain ⟨hbuf, hbat, hpw, hcross, hsorted⟩ := h
  refine ⟨?_, ?_, hpw, hcross, hsorted⟩
  · intro x hx
    have := hbuf x hx
    exact ⟨lt_of_lt_of_le this.1 hnm, this.2.1, this.2.2⟩
  · intro b hb x hx
    have := hbat b hb x hx
    exact ⟨lt_of_lt_of_le this.1 hnm, this.2.1, this.2.2⟩

theorem routerStep_inv (bufferMs : ℚ) (input : List (ℚ × ℚ × Tick)) (t e : ℚ)
    (c : Tick) {n : Nat} {st : RouterState (Nat × Tick)} (hinv : RInv input n st)
    (hn : n < input.length) (he : e = epochAt input n) :
    RInv input (n + 1) (consumerStep bufferMs st (t, e, (n, c))) := by
  unfold consumerStep
  by_cases hok : st.ok = false
  · rw [if_pos hok]
    exact RInv_mono hinv (Nat.le_succ n)
  · rw [if_neg hok]
    cases hpush : heappushE ((t, e, (n, c)).2.1, (t, e, (n, c)).2.2) st.buffer with
    | error err =>
      exact RInv_mono hinv (Nat.le_succ n)
    | ok buf' =>
      dsimp only
      have hmem := heappushE_mem hpush
      obtain ⟨hbuf, hbat, hpw, hcross, hsorted⟩ := hinv
      by_cases hfl : ((t, e, (n, c)).1 - st.lastFlush) * 1000 ≥ bufferMs
          ∨ buf'.length > 50
      · rw [if_pos hfl]
        refine ⟨?_, ?_, ?_, ?_, ?_⟩
        · intro x hx
          exact absurd hx (List.not_mem_nil x)
        · intro b hb x hx
          rcases List.mem_append.mp hb with hb' | hb'
          · have := hbat b hb' x hx
            exact ⟨Nat.lt_succ_of_lt this.1, this.2.1, this.2.2⟩
          · rw [List.mem_singleton.mp hb'] at hx
            rw [flushSorted_mem] at hx
            rcases hmem x hx with hx' | hx'
            · have := hbuf x hx'
              exact ⟨Nat.lt_succ_of_lt this.1, this.2.1, this.2.2⟩
            · rw [hx']
              exact ⟨Nat.lt_succ_self n, hn, he⟩
        · rw [List.pairwise_append]
          refine ⟨hpw, by simp, ?_⟩
          intro b1 hb1 b2 hb2
          rw [List.mem_singleton.mp hb2]
          intro x hx y hy
          rw [flushSorted_mem] at hy
          rcases hmem y hy with hy' | hy'
          · exact hcross b1 hb1 x hx y hy'
          · rw [hy']
            exact (hbat b1 hb1 x hx).1
        · intro b hb x hx y hy
          exact absurd hy (List.not_mem_nil y)
        · intro b hb
          rcases List.mem_append.mp hb with hb' | hb'
          · exact hsorted b hb'
          · rw [List.mem_singleton.mp hb']
            exact flushSorted_sorted buf'
      · rw [if_neg hfl]
        refine ⟨?_, ?_, hpw, ?_, hsorted⟩
        · intro x hx
          rcases hmem x hx with hx' | hx'
          · have := hbuf x hx'
            exact ⟨Nat.lt_succ_of_lt this.1, this.2.1, this.2.2⟩
          · rw [hx']
            exact ⟨Nat.lt_succ_self n, hn, he⟩
        · intro b hb x hx
          have := hbat b hb x hx
          exact ⟨Nat.lt_succ_of_lt this.1, this.2.1, this.2.2⟩
        · intro b hb x hx y hy
          rcases hmem y hy with hy' | hy'
          · exact hcross b hb x hx y hy'
          · rw [hy']
            exact (hbat b hb x hx).1

theorem routerFold_inv (bufferMs : ℚ) (input : List (ℚ × ℚ × Tick)) :
    ∀ (rest : List (ℚ × ℚ × Tick)) (n : Nat) (st : RouterState (Nat × Tick)),
      input.drop n = rest → RInv input n st →
      RInv input (n + rest.length)
        ((tagFrom n rest).foldl (consumerStep bufferMs) st) := by
  intro rest
  induction rest with
  | nil =>
    intro n st _ hinv
    simpa [tagFrom] using hinv
  | cons a rest ih =>
    intro n st hdrop hinv
    have hhead : input[n]? = some a := by
      rw [← List.head?_drop, hdrop]
      rfl
    have hn : n < input.length := (List.getElem?_eq_some_iff.mp hhead).choose
    have hgetD : input.getD n default = a := by
      rw [List.getD_eq_getElem?_getD, hhead]
      rfl
    have he : a.2.1 = epochAt input n := by rw [epochAt, hgetD]
    have hdrop' : input.drop (n + 1) = rest := by
      have h1 : (input.drop n).drop 1 = input.drop (n + 1) := List.drop_drop 1 n input
      rw [← h1, hdrop]
      rfl
    rw [show tagFrom n (a :: rest)
        = (a.1, a.2.1, (n, a.2.2)) :: tagFrom (n + 1) rest from rfl]
    rw [List.foldl_cons]
    have hstep := routerStep_inv bufferMs input a.1 a.2.1 a.2.2 hinv hn he
    have hres := ih (n + 1) _ hdrop' hstep
    have harith : n + 1 + rest.length = n + (a :: rest).length := by
      rw [List.length_cons]
      omega
    exact harith ▸ hres

/-- C3: feed any sequence of ticks for one symbol through the router's
per-symbol consumer (arrival time, parsed epoch, payload; inputs tagged with
their arrival position so the statement can name occurrences).  If every pair
of out-of-timestamp-order ticks is co-buffered — i.e. any two emitted ticks
that arrived in inverted timestamp order were flushed in the same batch,
which is what "each tick arrives within the buffer window of its peers"
guarantees — then the concatenation of the flushed batches, the sequence the
router re-emits, is non-decreasing in timestamp.  This holds for every run,
including runs that die on a heap-comparison `TypeError`. -/
theorem C3_router_output_sorted (bufferMs t0 : ℚ) (input : List (ℚ × ℚ × Tick))
    (hP : ∀ i, i < input.length → ∀ j, j < input.length → i < j →
        epochAt input j < epochAt input i →
        ∀ k1, k1 < (consumerRun bufferMs t0 (tagFrom 0 input)).batches.length →
        ∀ k2, k2 < (consumerRun bufferMs t0 (tagFrom 0 input)).batches.length →
        (∃ x ∈ (consumerRun bufferMs t0 (tagFrom 0 input)).batches.getD k1 [],
          x.2.1 = i) →
        (∃ x ∈ (consumerRun bufferMs t0 (tagFrom 0 input)).batches.getD k2 [],
          x.2.1 = j) →
        k1 = k2) :
    List.Sorted (· ≤ ·)
      (((consumerRun bufferMs t0 (tagFrom 0 input)).batches.flatten).map
        (fun x => x.1)) := by
  have hinv0 : RInv input 0 ⟨[], t0, [], true⟩ := by
    refine ⟨?_, ?_, ?_, ?_, ?_⟩ <;>
      first
        | exact fun x hx => absurd hx (List.not_mem_nil x)
        | exact List.Pairwise.nil
  have hfold := routerFold_inv bufferMs input input 0 ⟨[], t0, [], true⟩ rfl hinv0
  have hrun : consumerRun bufferMs t0 (tagFrom 0 input)
      = (tagFrom 0 input).foldl (consumerStep bufferMs) ⟨[], t0, [], true⟩ := rfl
  rw [← hrun] at hfold
  obtain ⟨_, hbat, hpw, _, hsorted⟩ := hfold
  unfold List.Sorted
  rw [List.pairwise_map, List.pairwise_flatten]
  refine ⟨hsorted, ?_⟩
  rw [List.pairwise_iff_getElem]
  intro k1 k2 hk1 hk2 hlt
  intro x hx y hy
  have hidx : x.2.1 < y.2.1 :=
    (List.pairwise_iff_getElem.mp hpw) k1 k2 hk1 hk2 hlt x hx y hy
  have hxb := hbat _ (List.getElem_mem hk1) x hx
  have hyb := hbat _ (List.getElem_mem hk2) y hy
  by_contra hcon
  push_neg at hcon
  have hepoch : epochAt input y.2.1 < epochAt input x.2.1 := by
    rw [← hxb.2.2, ← hyb.2.2]
    exact hcon
  have hk12 : k1 = k2 := by
    refine hP x.2.1 hxb.2.1 y.2.1 hyb.2.1 hidx hepoch k1 hk1 k2 hk2 ?_ ?_
    · refine ⟨x, ?_, rfl⟩
      rw [List.getD_eq_getElem _ _ hk1]
      exact hx
    · refine ⟨y, ?_, rfl⟩
      rw [List.getD_eq_getElem _ _ hk2]
      exact hy
  omega

def tickP : Tick := { symbol := "BTCUSDT", price := mkRat 1 1, volume := 0, tsEpoch := mkRat 10 1 }

def tickQ : Tick := { symbol := "BTCUSDT", price := mkRat 2 1, volume := 0, tsEpoch := mkRat 5 1 }

def tickR : Tick := { symbol := "BTCUSDT", price := mkRat 3 1, volume := 0, tsEpoch := mkRat 7 1 }

def c3input : List (ℚ × ℚ × Tick) :=
  [((0 : ℚ), mkRat 10 1, tickP), (mkRat 1 100, mkRat 5 1, tickQ),
   (mkRat 3 10, mkRat 7 1, tickR)]

set_option synthInstance.maxSize 2000 in
/-- C3 witness: three ticks arriving out of timestamp order (epochs 10, 5, 7)
within one 200 ms buffer window are flushed as one batch, and the emitted
epoch sequence 5, 7, 10 is non-decreasing. -/
theorem C3_witness :
    List.Sorted (· ≤ ·)
      (((consumerRun (mkRat 200 1) 0 (tagFrom 0 c3input)).batches.flatten).map
        (fun x => x.1)) :=
  C3_router_output_sorted (mkRat 200 1) 0 c3input (by with_unfolding_all decide)
